import Mathlib

/-!
Verification development for the retrieval-experiment orchestrator
(`experiment.py`).  The Python source is shallowly embedded: strings are
Lean strings, Python dicts are insertion-ordered association lists with
last-write-wins updates, the filesystem is an explicit association list,
and fallible operations return `Option`.  Numeric scores, which the
source holds as double-precision floats, are modelled as exact rationals
(`Rat`); rounding behaviour of machine floats is out of scope.
-/

set_option autoImplicit false

/-- First-match lookup in an insertion-ordered association list; this is the
read side of a Python dict. -/
def lookupA {α : Type} (k : String) : List (String × α) → Option α
  | [] => none
  | p :: ps => if p.1 = k then some p.2 else lookupA k ps

/-- Python dict assignment `d[k] = v`: replaces the value in place when the
key is present (keeping its insertion position), otherwise appends. -/
def dictInsert : List (String × String) → String → String → List (String × String)
  | [], k, v => [(k, v)]
  | p :: ps, k, v => if p.1 = k then (k, v) :: ps else p :: dictInsert ps k v

/-- `defaultdict(list)` update `d[k].append(v)` from
`get_avg_score_for_each_cell_type`: appends to the list at the key when
present, otherwise starts a fresh singleton list at the end. -/
def addScore : List (String × List Rat) → String → Rat → List (String × List Rat)
  | [], k, v => [(k, [v])]
  | p :: ps, k, v => if p.1 = k then (p.1, p.2 ++ [v]) :: ps else p :: addScore ps k v

/-- ASCII whitespace recognised by Python `str.strip` and `str.split()`
(wider Unicode whitespace is not modelled; the source only meets ASCII). -/
def isPyWs (c : Char) : Bool :=
  c == ' ' || c == '\t' || c == '\n' || c == '\r' || c == '\x0b' || c == '\x0c'

/-- Python `str.strip()` on a character list: drop whitespace at both ends. -/
def stripL (l : List Char) : List Char :=
  ((l.dropWhile isPyWs).reverse.dropWhile isPyWs).reverse

/-- Python `str.strip()`. -/
def pystrip (s : String) : String := String.mk (stripL s.data)

/-- Worker for Python `str.split()` (split on whitespace runs, discarding
empty pieces); `acc` holds the characters of the token in progress. -/
def splitAux : List Char → List Char → List (List Char)
  | [], acc => if acc.isEmpty then [] else [acc]
  | c :: cs, acc =>
    if isPyWs c then
      if acc.isEmpty then splitAux cs [] else acc :: splitAux cs []
    else splitAux cs (acc ++ [c])

/-- Python `str.split()` with no separator argument. -/
def pysplit (l : List Char) : List (List Char) := splitAux l []

/-- Python `posixpath.join` restricted to two arguments, as used by
`os.path.join` throughout the source. -/
def pjoin (a b : String) : String :=
  if b.data.head? = some '/' then b
  else if a = "" || a.data.getLast? = some '/' then a ++ b
  else a ++ "/" ++ b

/-- Python `path.split(sep='/')`: every slash separates, empty pieces kept. -/
def splitSlash : List Char → List (List Char)
  | [] => [[]]
  | c :: cs =>
    if c = '/' then [] :: splitSlash cs
    else
      match splitSlash cs with
      | [] => [[c]]
      | a :: rest => (c :: a) :: rest

/-- Python `posixpath.normpath`: collapse repeated slashes, drop single-dot
components, resolve double-dot components where possible, preserve the
POSIX special case of exactly two leading slashes. -/
def normpath (p : String) : String :=
  if p = "" then "." else
  let d := p.data
  let initialSlashes : Nat :=
    if d.head? = some '/' then
      if d.take 2 = ['/', '/'] ∧ d.take 3 ≠ ['/', '/', '/'] then 2 else 1
    else 0
  let comps := splitSlash d
  let newComps := comps.foldl (fun acc comp =>
    if comp = [] ∨ comp = ['.'] then acc
    else if comp ≠ ['.', '.'] ∨ (initialSlashes = 0 ∧ acc = []) ∨
        (acc ≠ [] ∧ acc.getLast? = some ['.', '.']) then acc ++ [comp]
    else if acc ≠ [] then acc.dropLast
    else acc) []
  let res := List.replicate initialSlashes '/' ++ List.intercalate ['/'] newComps
  if res = [] then "." else String.mk res

/-- Python `posixpath.basename`: everything after the last slash. -/
def basename (p : String) : String :=
  String.mk ((p.data.reverse.takeWhile (fun c => c ≠ '/')).reverse)

/-- `basename(normpath(model_folder))`, the model identity computed in
`Experiment.prepare`. -/
def modelName (p : String) : String := basename (normpath p)

/-- `SafeDict.__getitem__`: the bound value when the key is present, and the
literal placeholder text (the key wrapped in braces) via `__missing__`
otherwise. -/
def SafeDictGet (ctx : List (String × String)) (k : String) : String :=
  match lookupA k ctx with
  | some v => v
  | none => "\x7b" ++ k ++ "\x7d"

/-- Character scanner for `string.Formatter().vformat(template, (), SafeDict(...))`
as called in `Experiment.prepare`.  Mode `false` copies literal text,
handling doubled braces as escapes and failing on a lone closing brace or a
dangling opening brace, exactly as the Python format parser does.  Mode
`true` accumulates a field name in `acc` until the closing brace, failing
on a nested opening brace and on empty or all-digit field names (those are
positional fields, which raise because `vformat` is given no positional
arguments).  Conversion and format-spec suffixes of a field and non-ASCII
digit handling are not modelled; the templates in the source use only
simple named fields. -/
def vfAux (ctx : List (String × String)) : Bool → List Char → List Char → Option (List Char)
  | false, _, [] => some []
  | false, _, c :: cs =>
    if c = '\x7b' then
      match cs with
      | [] => none
      | d :: ds =>
        if d = '\x7b' then (vfAux ctx false [] ds).map (fun r => '\x7b' :: r)
        else if d = '\x7d' then none
        else vfAux ctx true [d] ds
    else if c = '\x7d' then
      match cs with
      | [] => none
      | d :: ds =>
        if d = '\x7d' then (vfAux ctx false [] ds).map (fun r => '\x7d' :: r)
        else none
    else (vfAux ctx false [] cs).map (fun r => c :: r)
  | true, _, [] => none
  | true, acc, c :: cs =>
    if c = '\x7d' then
      if acc.all Char.isDigit then none
      else (vfAux ctx false [] cs).map (fun r => (SafeDictGet ctx (String.mk acc)).data ++ r)
    else if c = '\x7b' then none
    else vfAux ctx true (acc ++ [c]) cs

/-- `string.Formatter().vformat(template, (), SafeDict(ctx))`: `none` models
a raised formatting error, `some` the rendered string. -/
def vformat (template : String) (ctx : List (String × String)) : Option String :=
  (vfAux ctx false [] template.data).map String.mk

/-- `REDUCE_COMMAND_TEMPLATE` from the source (the backslash-newline in the
Python triple-quoted literal is a line continuation, so the template is a
single line). -/
def REDUCE_COMMAND_TEMPLATE : String :=
  "python scrna.py reduce \x7btrained_nn_folder\x7d --data=data/integrate_imputing_dataset_kNN10_simgene_T.txt --out_folder=\x7boutput_folder\x7d"

/-- `RETRIEVAL_COMMAND_TEMPLATE` from the source. -/
def RETRIEVAL_COMMAND_TEMPLATE : String :=
  "python scrna.py retrieval \x7breduced_data_folder\x7d --out_folder=\x7boutput_folder\x7d"

/-- Structured view of a template, used to state what rendering does: a
template is a sequence of literal pieces and named placeholders. -/
inductive Tok : Type
  | lit (s : String)
  | ph (key : String)

/-- The text a token denotes inside a template string. -/
def tokText : Tok → String
  | .lit s => s
  | .ph k => "\x7b" ++ k ++ "\x7d"

/-- A token sequence written back as a template string. -/
def flattenT : List Tok → String
  | [] => ""
  | t :: ts => tokText t ++ flattenT ts

/-- Modelled from the spec (section 4.1): rendering replaces each
placeholder whose key is bound in the context by its value and leaves each
placeholder whose key is absent literally unchanged; literal text is
copied. -/
def renderSpec (ctx : List (String × String)) : List Tok → String
  | [] => ""
  | .lit s :: ts => s ++ renderSpec ctx ts
  | .ph k :: ts =>
    (match lookupA k ctx with
     | some v => v
     | none => "\x7b" ++ k ++ "\x7d") ++ renderSpec ctx ts

/-- One rendering pass at the token level: placeholders whose key is bound
become literal text, placeholders with unbound keys survive unchanged. -/
def substTok (ctx : List (String × String)) : List Tok → List Tok
  | [] => []
  | .lit s :: ts => .lit s :: substTok ctx ts
  | .ph k :: ts =>
    (match lookupA k ctx with
     | some v => Tok.lit v
     | none => Tok.ph k) :: substTok ctx ts

/-- Characters allowed in a simple named field: anything except braces and
the characters that start a conversion, a format spec, or an attribute or
index access in the Python format grammar. -/
def plainKeyChar (c : Char) : Bool :=
  c != '\x7b' && c != '\x7d' && c != '!' && c != ':' && c != '.' && c != '['

/-- A field name that the Python formatter treats as a plain keyword key:
nonempty, made of plain characters, and not all digits (all-digit names are
positional). -/
def validKeyB (k : String) : Bool :=
  !k.data.isEmpty && k.data.all plainKeyChar && !k.data.all Char.isDigit

/-- Brace-freeness of a character list. -/
def braceFree (l : List Char) : Bool :=
  l.all (fun c => c != '\x7b' && c != '\x7d')

/-- Well-formedness of a template token: literal pieces carry no brace, and
placeholder keys are plain keyword field names. -/
def validTokB : Tok → Bool
  | .lit s => braceFree s.data
  | .ph k => validKeyB k

/-- The transform output folder `prepare` computes for one model name. -/
def reducedDataFolder (wd name : String) : String :=
  pjoin wd ("data_transformed_by_" ++ name)

/-- The fully rendered stage-1 (reduce) command for one stripped model path,
as `prepare` builds it. -/
def reduceCmdStr (wd mf : String) : String :=
  "python scrna.py reduce " ++ mf ++
    " --data=data/integrate_imputing_dataset_kNN10_simgene_T.txt --out_folder=" ++
    reducedDataFolder wd (modelName mf)

/-- The fully rendered stage-2 (retrieval) command for one model name and
its transformed-data folder, as `prepare` builds it. -/
def retrievalCmdStr (rdir name tdf : String) : String :=
  "python scrna.py retrieval " ++ tdf ++ " --out_folder=" ++ pjoin rdir name

/-- First loop of `Experiment.prepare`: for each (already stripped) model
path, render the reduce template and record the command and the transform
output folder under the model name.  `none` propagates a formatting
error. -/
def prepStage1 (wd : String) :
    List String → List (String × String) × List (String × String) →
    Option (List (String × String) × List (String × String))
  | [], acc => some acc
  | mf :: rest, acc =>
    match vformat REDUCE_COMMAND_TEMPLATE
        [("trained_nn_folder", mf), ("output_folder", reducedDataFolder wd (modelName mf))] with
    | none => none
    | some cmd =>
      prepStage1 wd rest
        (dictInsert acc.1 (modelName mf) cmd,
         dictInsert acc.2 (modelName mf) (reducedDataFolder wd (modelName mf)))

/-- Second loop of `Experiment.prepare`: for each entry of
`transform_data_folders`, render the retrieval template and record the
command and the retrieval result folder under the model name. -/
def prepStage2 (rdir : String) :
    List (String × String) → List (String × String) × List (String × String) →
    Option (List (String × String) × List (String × String))
  | [], acc => some acc
  | (name, tdf) :: rest, acc =>
    match vformat RETRIEVAL_COMMAND_TEMPLATE
        [("reduced_data_folder", tdf), ("output_folder", pjoin rdir name)] with
    | none => none
    | some cmd =>
      prepStage2 rdir rest
        (dictInsert acc.1 name cmd, dictInsert acc.2 name (pjoin rdir name))

/-- State accumulated by `Experiment.prepare`, together with the two flat
command-list artifacts it writes: `write_out_command_dict` is called with
the literal relative paths given in the source, and writes one command per
line in dict value order. -/
structure PrepState : Type where
  transform_commands : List (String × String)
  transform_data_folders : List (String × String)
  retrieval_dir : String
  retrieval_commands : List (String × String)
  retrieval_result_folders : List (String × String)
  transform_list_path : String
  transform_list_lines : List String
  retrieval_list_path : String
  retrieval_list_lines : List String

/-- `Experiment.prepare`, given the workspace path and the raw lines of the
models file.  Lines are stripped, stage 1 builds the transform command dict,
stage 2 builds the retrieval command dict from the transform output
folders. -/
def prepare (wd : String) (fileLines : List String) : Option PrepState :=
  let model_folders := fileLines.map pystrip
  match prepStage1 wd model_folders ([], []) with
  | none => none
  | some (tc, tdf) =>
    let rdir := pjoin wd "retrieval_results"
    match prepStage2 rdir tdf ([], []) with
    | none => none
    | some (rc, rrf) =>
      some { transform_commands := tc
             transform_data_folders := tdf
             retrieval_dir := rdir
             retrieval_commands := rc
             retrieval_result_folders := rrf
             transform_list_path := "transform_commands.list"
             transform_list_lines := tc.map (fun p => p.2)
             retrieval_list_path := "retrieval_commands.list"
             retrieval_list_lines := rc.map (fun p => p.2) }

/-- The `transform_commands` dict that the stage-1 loop of `prepare` builds
over the stripped model paths. -/
def tcFold (wd : String) (l : List String) : List (String × String) :=
  l.foldl (fun d mf => dictInsert d (modelName mf) (reduceCmdStr wd mf)) []

/-- The `transform_data_folders` dict that the stage-1 loop of `prepare`
builds over the stripped model paths. -/
def tdfFold (wd : String) (l : List String) : List (String × String) :=
  l.foldl (fun d mf => dictInsert d (modelName mf) (reducedDataFolder wd (modelName mf))) []

/-- The `retrieval_commands` dict that the stage-2 loop of `prepare` builds
over the `transform_data_folders` entries. -/
def rcFold (rdir : String) (l : List (String × String)) : List (String × String) :=
  l.foldl (fun d p => dictInsert d p.1 (retrievalCmdStr rdir p.1 p.2)) []

/-- The `retrieval_result_folders` dict that the stage-2 loop of `prepare`
builds over the `transform_data_folders` entries. -/
def rrfFold (rdir : String) (l : List (String × String)) : List (String × String) :=
  l.foldl (fun d p => dictInsert d p.1 (pjoin rdir p.1)) []

/-- Whether `p` lies at or under the directory `ws` (same path text, or an
extension of it below a path separator). -/
def rootedAt (ws p : String) : Bool :=
  p == ws || List.isPrefixOf (ws.data ++ ['/']) p.data

/-- Mean of a list of scores, `np.mean` on exact rationals:
sum divided by length. -/
def listMean (l : List Rat) : Rat := l.sum / (l.length : Rat)

/-- First loop of `get_avg_score_for_each_cell_type`: group the score of
each row under its cell type with a `defaultdict(list)`.  A row of the CSV
is modelled as its (celltype, mean-average-precision) pair, the only
columns the source reads. -/
def groupScores (rows : List (String × Rat)) : List (String × List Rat) :=
  rows.foldl (fun d r => addScore d r.1 r.2) []

/-- `Experiment.get_avg_score_for_each_cell_type` on the parsed rows of one
result file: per cell type, the mean of its observed scores. -/
def get_avg_score_for_each_cell_type (rows : List (String × Rat)) : List (String × Rat) :=
  (groupScores rows).map (fun p => (p.1, listMean p.2))

/-- The readable result files: an association from path to parsed rows.  A
path that is absent models a missing file, whose `open` raises. -/
def ResultFs : Type := List (String × List (String × Rat))

/-- `open(path_to_csv)` followed by row parsing: `none` is the raised
`FileNotFoundError` of a missing file. -/
def readResultFile (fs : ResultFs) (path : String) : Option (List (String × Rat)) :=
  lookupA path fs

/-- `get_avg_score_for_each_cell_type` including the file access it begins
with. -/
def getAvgScoresFromFile (fs : ResultFs) (path : String) : Option (List (String × Rat)) :=
  (readResultFile fs path).map get_avg_score_for_each_cell_type

/-- Loop body of `Experiment.create_overall_results_table` for one
(model name, results folder) entry: read the summary file of the model and
append one (model, cell type, average score) row per cell type; a failure
(either already in `acc`, or raised by this read) makes the result
`none`. -/
def overallStep (fs : ResultFs) (acc : Option (List (String × String × Rat)))
    (nf : String × String) : Option (List (String × String × Rat)) :=
  acc.bind (fun rows =>
    (getAvgScoresFromFile fs (pjoin nf.2 "retrieval_summary.csv")).map
      (fun avgs => rows ++ avgs.map (fun p => (nf.1, p.1, p.2))))

/-- `Experiment.create_overall_results_table`: walk
`retrieval_result_folders` in order, read each model summary file at
`retrieval_summary.csv` under its folder, and append one (model, cell type,
average score) row per cell type.  The loop body has no exception handler,
so a failed read makes the whole call fail (`none`). -/
def create_overall_results_table (fs : ResultFs) (folders : List (String × String)) :
    Option (List (String × String × Rat)) :=
  folders.foldl (overallStep fs) (some [])

/-- Single-underscore-separated digit groups after the first digit, the
tail of the CPython integer-literal grammar used by `int(str)`. -/
def intTailOk : List Char → Bool
  | [] => true
  | c :: rest =>
    if c = '_' then
      match rest with
      | [] => false
      | d :: rest2 => d.isDigit && intTailOk rest2
    else c.isDigit && intTailOk rest

/-- Digit body accepted by `int(str)` after the optional sign: nonempty,
digits with single interior underscores. -/
def intBodyOk : List Char → Bool
  | [] => false
  | c :: rest => c.isDigit && intTailOk rest

/-- Numeric value of a digit body, skipping underscores. -/
def intDigitsVal (l : List Char) : Nat :=
  l.foldl (fun n c => if c = '_' then n else n * 10 + (c.toNat - 48)) 0

/-- Python `int(s)` on a decimal string: strips surrounding whitespace,
takes an optional sign, then a digit body; `none` is the raised
`ValueError`.  Non-ASCII digits are not modelled. -/
def pyParseInt (s : String) : Option Int :=
  match stripL s.data with
  | '+' :: rest => if intBodyOk rest then some (Int.ofNat (intDigitsVal rest)) else none
  | '-' :: rest => if intBodyOk rest then some (-(Int.ofNat (intDigitsVal rest))) else none
  | rest => if intBodyOk rest then some (Int.ofNat (intDigitsVal rest)) else none

/-- Job-identifier extraction from `Experiment.run`:
`int(result.stdout.decode("utf-8").strip().split()[-1])`.  `none` models
both the `IndexError` of an empty token list and the `ValueError` of an
unparseable token. -/
def extractJobId (stdout : String) : Option Int :=
  match (pysplit (stripL stdout.data)).getLast? with
  | none => none
  | some tok => pyParseInt (String.mk tok)

/-- The working-directory path `Experiment.__init__` resolves: the given
path when it is non-None and nonempty (both are falsy in Python), else a
time-stamped default under `experiments`. -/
def resolveWorkingDir (wd : Option String) (timeStr : String) : String :=
  match wd with
  | none => pjoin "experiments" timeStr
  | some s => if s = "" then pjoin "experiments" timeStr else s

/-- `os.makedirs(path)` with default `exist_ok=False` over a directory set:
raises (`none`) when the path already exists, otherwise returns the set
extended with the new path.  Creation of missing intermediate directories
is not tracked. -/
def pymakedirs (dirs : List String) (p : String) : Option (List String) :=
  if p ∈ dirs then none else some (dirs ++ [p])

/-- `Experiment.__init__`: resolve the working directory and create it,
failing when it already exists. -/
def expInit (dirs : List String) (wd : Option String) (timeStr : String) :
    Option (String × List String) :=
  (pymakedirs dirs (resolveWorkingDir wd timeStr)).map
    (fun dirs2 => (resolveWorkingDir wd timeStr, dirs2))

/-! ### Helper lemmas: strings, lookups -/

theorem strMk_data (s : String) : String.mk s.data = s := rfl

theorem braceFree_cons {c : Char} {l : List Char} (h : braceFree (c :: l) = true) :
    c ≠ '\x7b' ∧ c ≠ '\x7d' ∧ braceFree l = true := by
  simp only [braceFree, List.all_cons, Bool.and_eq_true, bne_iff_ne] at h
  exact ⟨h.1.1, h.1.2, by simp only [braceFree]; exact h.2⟩

theorem plain_braceFree {l : List Char} (h : l.all plainKeyChar = true) :
    braceFree l = true := by
  simp only [List.all_eq_true, plainKeyChar, Bool.and_eq_true, bne_iff_ne] at h
  simp only [braceFree, List.all_eq_true, Bool.and_eq_true, bne_iff_ne]
  intro c hc
  have hh := h c hc
  exact ⟨hh.1.1.1.1.1, hh.1.1.1.1.2⟩

theorem lookupA_mem {α : Type} {k : String} {v : α} :
    ∀ {l : List (String × α)}, lookupA k l = some v → (k, v) ∈ l := by
  intro l
  induction l with
  | nil => intro h; simp [lookupA] at h
  | cons p ps ih =>
    intro h
    by_cases hp : p.1 = k
    · rw [lookupA, if_pos hp] at h
      have : p = (k, v) := by
        cases p
        simp_all
      simp [this]
    · rw [lookupA, if_neg hp] at h
      exact List.mem_cons_of_mem _ (ih h)

theorem lookupA_append_some {α : Type} {k : String} {v : α} :
    ∀ {l1 : List (String × α)} (l2 : List (String × α)),
      lookupA k l1 = some v → lookupA k (l1 ++ l2) = some v := by
  intro l1
  induction l1 with
  | nil => intro l2 h; simp [lookupA] at h
  | cons p ps ih =>
    intro l2 h
    by_cases hp : p.1 = k
    · rw [lookupA, if_pos hp] at h
      simp [lookupA, if_pos hp, h]
    · rw [lookupA, if_neg hp] at h
      simp only [List.cons_append, lookupA, if_neg hp]
      exact ih l2 h

theorem lookupA_append_none {α : Type} {k : String} :
    ∀ {l1 : List (String × α)} (l2 : List (String × α)),
      lookupA k l1 = none → lookupA k (l1 ++ l2) = lookupA k l2 := by
  intro l1
  induction l1 with
  | nil => intro l2 _; simp
  | cons p ps ih =>
    intro l2 h
    by_cases hp : p.1 = k
    · rw [lookupA, if_pos hp] at h
      simp at h
    · rw [lookupA, if_neg hp] at h
      simp only [List.cons_append, lookupA, if_neg hp]
      exact ih l2 h

/-! ### Template engine: the source scanner agrees with the token reading -/

theorem vfAux_lit (ctx : List (String × String)) (s : List Char) (R : List Char)
    (h : braceFree s = true) :
    vfAux ctx false [] (s ++ R) = (vfAux ctx false [] R).map (fun r => s ++ r) := by
  induction s with
  | nil => simp
  | cons c s' ih =>
    obtain ⟨h1, h2, h3⟩ := braceFree_cons h
    have hstep : vfAux ctx false [] ((c :: s') ++ R) =
        (vfAux ctx false [] (s' ++ R)).map (fun r => c :: r) := by
      rw [List.cons_append, vfAux.eq_def]
      simp [h1, h2]
    rw [hstep, ih h3, Option.map_map]
    rfl

theorem vfAux_key (ctx : List (String × String)) (k : List Char) :
    ∀ (acc : List Char) (R : List Char), braceFree k = true →
    vfAux ctx true acc (k ++ '\x7d' :: R) =
      (if (acc ++ k).all Char.isDigit then none
       else (vfAux ctx false [] R).map
         (fun r => (SafeDictGet ctx (String.mk (acc ++ k))).data ++ r)) := by
  induction k with
  | nil =>
    intro acc R _
    rw [List.nil_append, vfAux.eq_def]
    simp
  | cons c k' ih =>
    intro acc R h
    obtain ⟨h1, h2, h3⟩ := braceFree_cons h
    have hstep : vfAux ctx true acc ((c :: k') ++ '\x7d' :: R) =
        vfAux ctx true (acc ++ [c]) (k' ++ '\x7d' :: R) := by
      rw [List.cons_append, vfAux.eq_def]
      simp [h1, h2]
    rw [hstep, ih (acc ++ [c]) R h3]
    simp [List.append_assoc]

theorem vfAux_ph (ctx : List (String × String)) (k : String) (R : List Char)
    (hk : validKeyB k = true) :
    vfAux ctx false [] ('\x7b' :: (k.data ++ '\x7d' :: R)) =
      (vfAux ctx false [] R).map (fun r => (SafeDictGet ctx k).data ++ r) := by
  simp only [validKeyB, Bool.and_eq_true, Bool.not_eq_true'] at hk
  obtain ⟨⟨hne, hplain⟩, hdig⟩ := hk
  match hkd : k.data with
  | [] => rw [hkd] at hne; simp at hne
  | kc :: krest =>
    have hplain2 : (kc :: krest).all plainKeyChar = true := hkd ▸ hplain
    simp only [List.all_cons, Bool.and_eq_true] at hplain2
    obtain ⟨hkc, hkrest⟩ := hplain2
    have hkc2 : kc ≠ '\x7b' ∧ kc ≠ '\x7d' := by
      simp only [plainKeyChar, Bool.and_eq_true, bne_iff_ne] at hkc
      exact ⟨hkc.1.1.1.1.1, hkc.1.1.1.1.2⟩
    have hstep : vfAux ctx false [] ('\x7b' :: (kc :: (krest ++ '\x7d' :: R))) =
        vfAux ctx true [kc] (krest ++ '\x7d' :: R) := by
      rw [vfAux.eq_def]
      simp [hkc2.1, hkc2.2]
    rw [List.cons_append, hstep, vfAux_key ctx krest [kc] R (plain_braceFree hkrest)]
    have hacc : [kc] ++ krest = k.data := by rw [hkd]; rfl
    rw [hacc, if_neg (by simp [hdig]), strMk_data]

theorem vfAux_flatten (ctx : List (String × String)) (t : List Tok)
    (hv : ∀ tok ∈ t, validTokB tok = true) :
    ∀ R : List Char,
      vfAux ctx false [] ((flattenT t).data ++ R) =
        (vfAux ctx false [] R).map (fun r => (renderSpec ctx t).data ++ r) := by
  induction t with
  | nil => intro R; simp [flattenT, renderSpec]
  | cons tok ts ih =>
    intro R
    have hvt : validTokB tok = true := hv tok (by simp)
    have hvts : ∀ x ∈ ts, validTokB x = true := fun x hx => hv x (by simp [hx])
    match tok with
    | .lit s =>
      have h0 : (flattenT (Tok.lit s :: ts)).data = s.data ++ (flattenT ts).data := by
        rw [flattenT, String.data_append]
        rfl
      rw [h0, List.append_assoc, vfAux_lit ctx s.data _ hvt, ih hvts R, Option.map_map]
      have h1 : (renderSpec ctx (Tok.lit s :: ts)).data =
          s.data ++ (renderSpec ctx ts).data := by
        rw [renderSpec, String.data_append]
      simp only [h1, List.append_assoc]
      rfl
    | .ph k =>
      have h0 : (flattenT (Tok.ph k :: ts)).data =
          ('\x7b' :: (k.data ++ ['\x7d'])) ++ (flattenT ts).data := by
        rw [flattenT, String.data_append]
        rfl
      have hshape : (k.data ++ ['\x7d']) ++ ((flattenT ts).data ++ R) =
          k.data ++ '\x7d' :: ((flattenT ts).data ++ R) := by
        simp [List.append_assoc]
      rw [h0, List.append_assoc, List.cons_append, hshape,
        vfAux_ph ctx k _ hvt, ih hvts R, Option.map_map]
      have h1 : (renderSpec ctx (Tok.ph k :: ts)).data =
          (SafeDictGet ctx k).data ++ (renderSpec ctx ts).data := by
        cases hlk : lookupA k ctx <;>
          simp [renderSpec, SafeDictGet, hlk, String.data_append]
      simp only [h1, List.append_assoc]
      rfl

theorem vformat_flattenT (ctx : List (String × String)) (t : List Tok)
    (hv : ∀ tok ∈ t, validTokB tok = true) :
    vformat (flattenT t) ctx = some (renderSpec ctx t) := by
  have h := vfAux_flatten ctx t hv []
  rw [List.append_nil] at h
  rw [vformat, h]
  simp [vfAux, strMk_data]

theorem renderSpec_eq_flatten_subst (ctx : List (String × String)) :
    ∀ t : List Tok, renderSpec ctx t = flattenT (substTok ctx t) := by
  intro t
  induction t with
  | nil => rfl
  | cons tok ts ih =>
    match tok with
    | .lit s =>
      rw [renderSpec, substTok, flattenT, tokText, ih]
    | .ph k =>
      cases hlk : lookupA k ctx with
      | none => rw [renderSpec, substTok, hlk, flattenT, ih]; rfl
      | some v => rw [renderSpec, substTok, hlk, flattenT, ih]; rfl

theorem substTok_valid (c1 : List (String × String))
    (hvals : ∀ p ∈ c1, braceFree p.2.data = true) :
    ∀ t : List Tok, (∀ tok ∈ t, validTokB tok = true) →
      ∀ tok ∈ substTok c1 t, validTokB tok = true := by
  intro t
  induction t with
  | nil => intro _ tok h; simp [substTok] at h
  | cons t0 ts ih =>
    intro hv tok htok
    have hv0 : validTokB t0 = true := hv t0 (by simp)
    have hvts : ∀ x ∈ ts, validTokB x = true := fun x hx => hv x (by simp [hx])
    match t0 with
    | .lit s =>
      rw [substTok] at htok
      rcases List.mem_cons.mp htok with h | h
      · rw [h]; exact hv0
      · exact ih hvts tok h
    | .ph k =>
      rw [substTok] at htok
      cases hlk : lookupA k c1 with
      | none =>
        rw [hlk] at htok
        rcases List.mem_cons.mp htok with h | h
        · rw [h]; exact hv0
        · exact ih hvts tok h
      | some v =>
        rw [hlk] at htok
        rcases List.mem_cons.mp htok with h | h
        · rw [h]
          exact hvals (k, v) (lookupA_mem hlk)
        · exact ih hvts tok h

theorem renderSpec_subst (c1 c2 : List (String × String)) :
    ∀ t : List Tok, renderSpec c2 (substTok c1 t) = renderSpec (c1 ++ c2) t := by
  intro t
  induction t with
  | nil => rfl
  | cons tok ts ih =>
    match tok with
    | .lit s => rw [substTok, renderSpec, renderSpec, ih]
    | .ph k =>
      cases hlk : lookupA k c1 with
      | none =>
        rw [substTok, hlk, renderSpec, renderSpec, ih, lookupA_append_none c2 hlk]
      | some v =>
        rw [substTok, hlk, renderSpec, renderSpec, ih, lookupA_append_some c2 hlk]

theorem reduce_render (mf out : String) :
    vformat REDUCE_COMMAND_TEMPLATE [("trained_nn_folder", mf), ("output_folder", out)] =
      some ("python scrna.py reduce " ++ mf ++
        " --data=data/integrate_imputing_dataset_kNN10_simgene_T.txt --out_folder=" ++ out) := by
  have ht : REDUCE_COMMAND_TEMPLATE =
      flattenT [Tok.lit "python scrna.py reduce ", Tok.ph "trained_nn_folder",
        Tok.lit " --data=data/integrate_imputing_dataset_kNN10_simgene_T.txt --out_folder=",
        Tok.ph "output_folder"] := by decide
  rw [ht, vformat_flattenT _ _ (by decide)]
  rw [renderSpec, renderSpec, renderSpec, renderSpec, renderSpec]
  rw [show lookupA "trained_nn_folder" [("trained_nn_folder", mf), ("output_folder", out)]
      = some mf from rfl]
  rw [show lookupA "output_folder" [("trained_nn_folder", mf), ("output_folder", out)]
      = some out from rfl]
  simp [String.append_assoc, String.append_empty]

theorem retrieval_render (tdf out : String) :
    vformat RETRIEVAL_COMMAND_TEMPLATE [("reduced_data_folder", tdf), ("output_folder", out)] =
      some ("python scrna.py retrieval " ++ tdf ++ " --out_folder=" ++ out) := by
  have ht : RETRIEVAL_COMMAND_TEMPLATE =
      flattenT [Tok.lit "python scrna.py retrieval ", Tok.ph "reduced_data_folder",
        Tok.lit " --out_folder=", Tok.ph "output_folder"] := by decide
  rw [ht, vformat_flattenT _ _ (by decide)]
  rw [renderSpec, renderSpec, renderSpec, renderSpec, renderSpec]
  rw [show lookupA "reduced_data_folder" [("reduced_data_folder", tdf), ("output_folder", out)]
      = some tdf from rfl]
  rw [show lookupA "output_folder" [("reduced_data_folder", tdf), ("output_folder", out)]
      = some out from rfl]
  simp [String.append_assoc, String.append_empty]

/-- C5: for every template (a sequence of literal pieces and well-formed
named placeholders) and every context, `vformat` succeeds and produces the
spec-side rendering: each placeholder whose key is bound in the context is
replaced by its value, and each placeholder whose key is absent is left in
the output as literal placeholder text, with no error raised. -/
theorem C5_safe_render (t : List Tok) (ctx : List (String × String))
    (hv : ∀ tok ∈ t, validTokB tok = true) :
    vformat (flattenT t) ctx = some (renderSpec ctx t) :=
  vformat_flattenT ctx t hv

/-- Witness for C5 at a concrete template with one bound and one unbound
placeholder. -/
theorem C5_safe_render_witness :
    (∀ tok ∈ [Tok.lit "cmd ", Tok.ph "known", Tok.lit " ", Tok.ph "missing"],
        validTokB tok = true)
    ∧ vformat (flattenT [Tok.lit "cmd ", Tok.ph "known", Tok.lit " ", Tok.ph "missing"])
        [("known", "VAL")]
      = some (renderSpec [("known", "VAL")]
          [Tok.lit "cmd ", Tok.ph "known", Tok.lit " ", Tok.ph "missing"]) :=
  ⟨by decide, C5_safe_render _ _ (by decide)⟩

/-- C6 counterexample: rendering in two passes with key-disjoint contexts is
not always the same as rendering once with the union.  When the value bound
by the first context itself contains placeholder text, the second pass
resolves it, while the single-pass union render does not: the template is a
single placeholder for key a, the first context binds a to the literal text
of a placeholder for b, the second binds b to 1. -/
theorem C6_two_pass_cx :
    (∀ k ∈ ([("a", "\x7bb\x7d")].map Prod.fst), k ∉ ([("b", "1")].map Prod.fst))
    ∧ (vformat "\x7ba\x7d" [("a", "\x7bb\x7d")]).bind (fun r => vformat r [("b", "1")])
        = some "1"
    ∧ vformat "\x7ba\x7d" ([("a", "\x7bb\x7d")] ++ [("b", "1")]) = some "\x7bb\x7d"
    ∧ some "1" ≠ (some "\x7bb\x7d" : Option String) := by
  exact ⟨by decide, by decide, by decide, by decide⟩

/-- C6 as amended: two-pass rendering with key-disjoint contexts equals the
single-pass render with the union, provided additionally that the values of
the first context contain no brace characters (so the first pass cannot
manufacture new placeholders). -/
theorem C6_two_pass_render (t : List Tok) (c1 c2 : List (String × String))
    (hv : ∀ tok ∈ t, validTokB tok = true)
    (hvals : ∀ p ∈ c1, braceFree p.2.data = true)
    (hdisj : ∀ k ∈ c1.map Prod.fst, k ∉ c2.map Prod.fst) :
    (vformat (flattenT t) c1).bind (fun r => vformat r c2) =
      vformat (flattenT t) (c1 ++ c2) := by
  rw [vformat_flattenT c1 t hv, Option.some_bind, renderSpec_eq_flatten_subst,
    vformat_flattenT c2 (substTok c1 t) (substTok_valid c1 hvals t hv),
    vformat_flattenT (c1 ++ c2) t hv, renderSpec_subst]

/-- Witness for C6 as amended, at a template with one placeholder per
context. -/
theorem C6_two_pass_render_witness :
    (vformat (flattenT [Tok.ph "a", Tok.lit " ", Tok.ph "b"]) [("a", "1")]).bind
        (fun r => vformat r [("b", "2")]) =
      vformat (flattenT [Tok.ph "a", Tok.lit " ", Tok.ph "b"]) ([("a", "1")] ++ [("b", "2")]) :=
  C6_two_pass_render _ _ _ (by decide) (by decide) (by decide)

/-! ### Dict semantics lemmas -/

theorem lookupA_dictInsert (c k v : String) :
    ∀ d : List (String × String), lookupA c (dictInsert d k v) =
      if c = k then some v else lookupA c d := by
  intro d
  induction d with
  | nil =>
    simp only [dictInsert, lookupA]
    by_cases hck : c = k
    · simp [hck]
    · simp [hck, Ne.symm hck]
  | cons p ps ih =>
    simp only [dictInsert]
    by_cases hpk : p.1 = k
    · simp only [if_pos hpk, lookupA]
      by_cases hck : c = k
      · simp [hck]
      · have hpc : p.1 ≠ c := by rw [hpk]; exact Ne.symm hck
        simp [hck, Ne.symm hck, lookupA, hpc]
    · simp only [if_neg hpk, lookupA, ih]
      by_cases hpc : p.1 = c
      · have hck : c ≠ k := fun h => hpk (by rw [hpc, h])
        simp [hpc, hck]
      · simp [hpc]

theorem dictInsert_fresh {k v : String} : ∀ {d : List (String × String)},
    lookupA k d = none → dictInsert d k v = d ++ [(k, v)] := by
  intro d
  induction d with
  | nil => intro _; rfl
  | cons p ps ih =>
    intro h
    rw [lookupA] at h
    by_cases hp : p.1 = k
    · rw [if_pos hp] at h; exact absurd h (by simp)
    · rw [if_neg hp] at h
      rw [dictInsert, if_neg hp, ih h, List.cons_append]

theorem lookupA_eq_none_iff {α : Type} (k : String) :
    ∀ d : List (String × α), lookupA k d = none ↔ k ∉ d.map Prod.fst := by
  intro d
  induction d with
  | nil => simp [lookupA]
  | cons p ps ih =>
    rw [lookupA]
    by_cases hp : p.1 = k
    · simp [hp]
    · simp only [if_neg hp, ih, List.map_cons, List.mem_cons, not_or]
      simp [show ¬ k = p.1 from fun h => hp h.symm]

theorem keys_dictInsert_some {k v w : String} : ∀ {d : List (String × String)},
    lookupA k d = some w → (dictInsert d k v).map Prod.fst = d.map Prod.fst := by
  intro d
  induction d with
  | nil => intro h; simp [lookupA] at h
  | cons p ps ih =>
    intro h
    rw [lookupA] at h
    by_cases hp : p.1 = k
    · rw [dictInsert, if_pos hp]
      simp [hp]
    · rw [if_neg hp] at h
      rw [dictInsert, if_neg hp]
      simp [ih h]

theorem dictInsert_keys_nodup (k v : String) {d : List (String × String)}
    (h : (d.map Prod.fst).Nodup) : ((dictInsert d k v).map Prod.fst).Nodup := by
  cases hlk : lookupA k d with
  | some w => rw [keys_dictInsert_some hlk]; exact h
  | none =>
    rw [dictInsert_fresh hlk, List.map_append, List.nodup_append]
    refine ⟨h, List.nodup_singleton _, ?_⟩
    intro a ha hak
    simp only [List.map_cons, List.map_nil, List.mem_singleton] at hak
    subst hak
    exact ((lookupA_eq_none_iff _ _).mp hlk) ha

theorem foldl_dictInsert_fresh {α : Type} (k : α → String) (v : α → String) :
    ∀ (l : List α) (d : List (String × String)),
      (∀ a ∈ l, lookupA (k a) d = none) → (l.map k).Nodup →
      l.foldl (fun d a => dictInsert d (k a) (v a)) d = d ++ l.map (fun a => (k a, v a)) := by
  intro l
  induction l with
  | nil => intro d _ _; simp
  | cons a rest ih =>
    intro d hfresh hnd
    simp only [List.foldl_cons, List.map_cons]
    have ha : lookupA (k a) d = none := hfresh a (List.mem_cons_self a rest)
    rw [dictInsert_fresh ha]
    have hnd' : (rest.map k).Nodup := (List.nodup_cons.mp hnd).2
    have hka : k a ∉ rest.map k := (List.nodup_cons.mp hnd).1
    have hfresh' : ∀ b ∈ rest, lookupA (k b) (d ++ [(k a, v a)]) = none := by
      intro b hb
      rw [lookupA_append_none _ (hfresh b (List.mem_cons_of_mem a hb))]
      have hne : k a ≠ k b := fun h => hka (h ▸ List.mem_map_of_mem k hb)
      simp [lookupA, hne]
    rw [ih (d ++ [(k a, v a)]) hfresh' hnd']
    simp [List.append_assoc]

theorem foldl_dictInsert_keys_nodup {α : Type} (k : α → String) (v : α → String) :
    ∀ (l : List α) (d : List (String × String)), (d.map Prod.fst).Nodup →
      ((l.foldl (fun d a => dictInsert d (k a) (v a)) d).map Prod.fst).Nodup := by
  intro l
  induction l with
  | nil => intro d h; exact h
  | cons a rest ih => intro d h; exact ih _ (dictInsert_keys_nodup _ _ h)

theorem foldl_dictInsert_pres {α : Type} (k : α → String) (v : α → String) :
    ∀ (l : List α) (d : List (String × String)) (c : String),
      (∃ w, lookupA c d = some w) →
      ∃ w, lookupA c (l.foldl (fun d a => dictInsert d (k a) (v a)) d) = some w := by
  intro l
  induction l with
  | nil => intro d c h; exact h
  | cons a rest ih =>
    intro d c h
    apply ih
    rw [lookupA_dictInsert]
    by_cases hc : c = k a
    · exact ⟨v a, by simp [hc]⟩
    · obtain ⟨w, hw⟩ := h
      exact ⟨w, by simp [hc, hw]⟩

theorem foldl_dictInsert_mem {α : Type} (k : α → String) (v : α → String) :
    ∀ (l : List α) (d : List (String × String)) (a0 : α), a0 ∈ l →
      ∃ w, lookupA (k a0) (l.foldl (fun d a => dictInsert d (k a) (v a)) d) = some w := by
  intro l
  induction l with
  | nil => intro d a0 h; simp at h
  | cons a rest ih =>
    intro d a0 h
    rcases List.mem_cons.mp h with rfl | hmem
    · simp only [List.foldl_cons]
      apply foldl_dictInsert_pres
      exact ⟨v a0, by rw [lookupA_dictInsert]; simp⟩
    · simp only [List.foldl_cons]
      exact ih _ a0 hmem

theorem foldl_pair {α β γ : Type} (f : β → α → β) (g : γ → α → γ) :
    ∀ (l : List α) (d : β × γ),
      l.foldl (fun a x => (f a.1 x, g a.2 x)) d = (l.foldl f d.1, l.foldl g d.2) := by
  intro l
  induction l with
  | nil => intro d; rfl
  | cons a rest ih => intro d; simp only [List.foldl_cons]; rw [ih]

theorem lookupA_map_keyval (g : String → String → String) (c : String) :
    ∀ l : List (String × String),
      lookupA c (l.map (fun p => (p.1, g p.1 p.2))) = (lookupA c l).map (g c) := by
  intro l
  induction l with
  | nil => rfl
  | cons p ps ih =>
    simp only [List.map_cons, lookupA]
    by_cases hp : p.1 = c
    · simp [hp]
    · simp [hp, ih]

theorem lookupA_map_val {α β : Type} (f : α → β) (c : String) :
    ∀ l : List (String × α),
      lookupA c (l.map (fun p => (p.1, f p.2))) = (lookupA c l).map f := by
  intro l
  induction l with
  | nil => rfl
  | cons p ps ih =>
    simp only [List.map_cons, lookupA]
    by_cases hp : p.1 = c
    · simp [hp]
    · simp [hp, ih]

/-! ### Aggregation lemmas -/

theorem lookupA_addScore_self (k : String) (v : Rat) :
    ∀ d : List (String × List Rat),
      lookupA k (addScore d k v) = some ((lookupA k d).getD [] ++ [v]) := by
  intro d
  induction d with
  | nil => simp [addScore, lookupA]
  | cons p ps ih =>
    by_cases hp : p.1 = k
    · simp [addScore, hp, lookupA]
    · simp [addScore, hp, lookupA, ih]

theorem lookupA_addScore_other (k c : String) (v : Rat) (hck : c ≠ k) :
    ∀ d : List (String × List Rat), lookupA c (addScore d k v) = lookupA c d := by
  intro d
  induction d with
  | nil => simp [addScore, lookupA, Ne.symm hck]
  | cons p ps ih =>
    by_cases hp : p.1 = k
    · have hpc : p.1 ≠ c := by rw [hp]; exact Ne.symm hck
      simp [addScore, hp, lookupA, hpc, Ne.symm hck]
    · simp [addScore, hp, lookupA, ih]

theorem lookupA_groupScores_aux :
    ∀ (rows : List (String × Rat)) (d : List (String × List Rat)) (c : String),
      lookupA c (rows.foldl (fun d r => addScore d r.1 r.2) d) =
        (if lookupA c d = none ∧ rows.filter (fun q => q.1 == c) = [] then none
         else some ((lookupA c d).getD [] ++
           (rows.filter (fun q => q.1 == c)).map Prod.snd)) := by
  intro rows
  induction rows with
  | nil =>
    intro d c
    simp only [List.foldl_nil, List.filter_nil]
    cases hld : lookupA c d with
    | none => simp [hld]
    | some w => simp [hld]
  | cons r rest ih =>
    intro d c
    simp only [List.foldl_cons]
    rw [ih]
    by_cases hr : r.1 = c
    · have hfilter : (r :: rest).filter (fun q => q.1 == c) =
          r :: rest.filter (fun q => q.1 == c) := by
        simp [List.filter_cons, hr]
      rw [hr, lookupA_addScore_self, hfilter]
      simp [List.append_assoc]
    · have hfilter : (r :: rest).filter (fun q => q.1 == c) =
          rest.filter (fun q => q.1 == c) := by
        simp [List.filter_cons, hr]
      rw [lookupA_addScore_other r.1 c r.2 (fun h => hr h.symm), hfilter]

/-- C3: per-model averaging.  For every parsed result file and every cell
type, `get_avg_score_for_each_cell_type` reports exactly the arithmetic
mean (sum over count) of the observations of that cell type, and reports
nothing for a cell type with no observations.  On the concrete file
[(catA,1), (catA,3), (catB,2)] it yields exactly [(catA,2), (catB,2)]. -/
theorem C3_average_by_category :
    (∀ (rows : List (String × Rat)) (c : String),
      lookupA c (get_avg_score_for_each_cell_type rows) =
        (if rows.filter (fun q => q.1 == c) = [] then none
         else some ((((rows.filter (fun q => q.1 == c)).map Prod.snd).sum) /
           (((rows.filter (fun q => q.1 == c)).map Prod.snd).length : Rat))))
    ∧ get_avg_score_for_each_cell_type [("catA", 1), ("catA", 3), ("catB", 2)] =
        [("catA", 2), ("catB", 2)] := by
  constructor
  · intro rows c
    rw [get_avg_score_for_each_cell_type, lookupA_map_val listMean c (groupScores rows),
      groupScores, lookupA_groupScores_aux rows [] c]
    simp only [lookupA]
    by_cases hf : rows.filter (fun q => q.1 == c) = []
    · simp [hf]
    · simp [hf, listMean]
  · simp [get_avg_score_for_each_cell_type, groupScores, addScore, listMean,
      show ("catA" : String) ≠ "catB" from by decide]
    norm_num

/-! ### Aggregation failure propagation -/

theorem foldl_overallStep_none (fs : ResultFs) :
    ∀ folders : List (String × String), folders.foldl (overallStep fs) none = none := by
  intro folders
  induction folders with
  | nil => rfl
  | cons nf rest ih =>
    simp only [List.foldl_cons]
    rw [show overallStep fs none nf = none from rfl]
    exact ih

theorem foldl_overallStep_missing (fs : ResultFs) :
    ∀ (folders : List (String × String)) (acc : Option (List (String × String × Rat))),
      (∃ nf ∈ folders, readResultFile fs (pjoin nf.2 "retrieval_summary.csv") = none) →
      folders.foldl (overallStep fs) acc = none := by
  intro folders
  induction folders with
  | nil => intro acc h; simp at h
  | cons nf rest ih =>
    intro acc h
    rcases h with ⟨nf0, hmem, hnone⟩
    rcases List.mem_cons.mp hmem with rfl | hmem2
    · simp only [List.foldl_cons]
      have hstep : overallStep fs acc nf0 = none := by
        cases acc with
        | none => rfl
        | some rows => simp [overallStep, getAvgScoresFromFile, hnone]
      rw [hstep]
      exact foldl_overallStep_none fs rest
    · simp only [List.foldl_cons]
      exact ih _ ⟨nf0, hmem2, hnone⟩

/-- C1 counterexample: with model alpha missing its result file and model
beta having a valid one, `create_overall_results_table` does not produce
the beta rows: the unhandled read failure at alpha makes the whole
aggregation fail (`none`), contrary to the claimed skip-and-continue. -/
theorem C1_missing_result_cx :
    readResultFile
        [("ws/retrieval_results/beta/retrieval_summary.csv", [("T-cell", (1 : Rat))])]
        "ws/retrieval_results/alpha/retrieval_summary.csv" = none
    ∧ (∃ rows, readResultFile
        [("ws/retrieval_results/beta/retrieval_summary.csv", [("T-cell", (1 : Rat))])]
        "ws/retrieval_results/beta/retrieval_summary.csv" = some rows)
    ∧ create_overall_results_table
        [("ws/retrieval_results/beta/retrieval_summary.csv", [("T-cell", (1 : Rat))])]
        [("alpha", "ws/retrieval_results/alpha"), ("beta", "ws/retrieval_results/beta")] =
        none :=
  ⟨rfl, ⟨[("T-cell", (1 : Rat))], rfl⟩, rfl⟩

/-- C1 as amended: a missing per-model result file aborts the whole
aggregation.  Whenever any entry of `retrieval_result_folders` has no
readable `retrieval_summary.csv`, `create_overall_results_table` fails and
produces no table at all, models with valid files included. -/
theorem C1_missing_result_aborts (fs : ResultFs) (folders : List (String × String))
    (h : ∃ nf ∈ folders, readResultFile fs (pjoin nf.2 "retrieval_summary.csv") = none) :
    create_overall_results_table fs folders = none :=
  foldl_overallStep_missing fs folders (some []) h

/-- Witness for C1 as amended at a two-model instance. -/
theorem C1_missing_result_aborts_witness :
    create_overall_results_table
        [("ws2/retrieval_results/beta/retrieval_summary.csv", [("B-cell", (1 : Rat))])]
        [("alpha", "ws2/retrieval_results/alpha"), ("beta", "ws2/retrieval_results/beta")] =
      none :=
  C1_missing_result_aborts _ _
    ⟨("alpha", "ws2/retrieval_results/alpha"), List.mem_cons_self _ _, rfl⟩

/-! ### Whitespace splitting lemmas for job-id extraction -/

theorem splitAux_allWs {w : List Char} (hw : ∀ c ∈ w, isPyWs c = true) :
    ∀ acc : List Char, splitAux w acc = if acc.isEmpty then [] else [acc] := by
  induction w with
  | nil => intro acc; rfl
  | cons c w2 ih =>
    intro acc
    have hc : isPyWs c = true := hw c (List.mem_cons_self c w2)
    have hw2 : ∀ x ∈ w2, isPyWs x = true := fun x hx => hw x (List.mem_cons_of_mem c hx)
    rw [splitAux, if_pos hc]
    by_cases ha : acc.isEmpty
    · rw [if_pos ha, ih hw2 [], if_pos ha]
      rfl
    · rw [if_neg ha, ih hw2 [], if_neg ha]
      rfl

theorem splitAux_append_trailingWs {w : List Char} (hw : ∀ c ∈ w, isPyWs c = true) :
    ∀ (m : List Char) (acc : List Char), splitAux (m ++ w) acc = splitAux m acc := by
  intro m
  induction m with
  | nil =>
    intro acc
    rw [List.nil_append, splitAux_allWs hw acc]
    rfl
  | cons c m2 ih =>
    intro acc
    rw [List.cons_append, splitAux, splitAux]
    by_cases hc : isPyWs c = true
    · rw [if_pos hc, if_pos hc]
      by_cases ha : acc.isEmpty
      · rw [if_pos ha, if_pos ha, ih]
      · rw [if_neg ha, if_neg ha, ih]
    · rw [if_neg hc, if_neg hc, ih]

theorem splitAux_dropWhile_leading :
    ∀ l : List Char, splitAux (l.dropWhile isPyWs) [] = splitAux l [] := by
  intro l
  induction l with
  | nil => rfl
  | cons c cs ih =>
    by_cases hc : isPyWs c = true
    · rw [List.dropWhile_cons_of_pos hc, ih, splitAux, if_pos hc]
      rfl
    · rw [List.dropWhile_cons_of_neg (by simp [hc])]

theorem pysplit_stripL (l : List Char) : pysplit (stripL l) = pysplit l := by
  rw [pysplit, pysplit, stripL]
  have hsplit : ((l.dropWhile isPyWs).reverse.dropWhile isPyWs).reverse ++
      ((l.dropWhile isPyWs).reverse.takeWhile isPyWs).reverse = l.dropWhile isPyWs := by
    rw [← List.reverse_append, List.takeWhile_append_dropWhile, List.reverse_reverse]
  have hw : ∀ c ∈ ((l.dropWhile isPyWs).reverse.takeWhile isPyWs).reverse, isPyWs c = true := by
    intro c hc
    rw [List.mem_reverse] at hc
    exact List.mem_takeWhile_imp hc
  calc splitAux ((l.dropWhile isPyWs).reverse.dropWhile isPyWs).reverse []
      = splitAux (((l.dropWhile isPyWs).reverse.dropWhile isPyWs).reverse ++
          ((l.dropWhile isPyWs).reverse.takeWhile isPyWs).reverse) [] :=
        (splitAux_append_trailingWs hw _ []).symm
    _ = splitAux (l.dropWhile isPyWs) [] := by rw [hsplit]
    _ = splitAux l [] := splitAux_dropWhile_leading l

theorem splitAux_append_space (t : List Char) :
    ∀ (x : List Char) (acc : List Char),
      splitAux (x ++ ' ' :: t) acc = splitAux (x ++ [' ']) acc ++ splitAux t [] := by
  intro x
  induction x with
  | nil =>
    intro acc
    rw [List.nil_append, List.nil_append, splitAux, splitAux]
    have hsp : isPyWs ' ' = true := rfl
    rw [if_pos hsp, if_pos hsp]
    by_cases ha : acc.isEmpty
    · rw [if_pos ha, if_pos ha]
      rfl
    · rw [if_neg ha, if_neg ha]
      rfl
  | cons c x2 ih =>
    intro acc
    rw [List.cons_append, List.cons_append, splitAux, splitAux]
    by_cases hc : isPyWs c = true
    · rw [if_pos hc, if_pos hc]
      by_cases ha : acc.isEmpty
      · rw [if_pos ha, if_pos ha, ih]
      · rw [if_neg ha, if_neg ha, ih]
        rfl
    · rw [if_neg hc, if_neg hc, ih]

theorem splitAux_token_aux {t : List Char} (htw : ∀ c ∈ t, isPyWs c = false) :
    ∀ acc : List Char, splitAux t acc =
      if (acc ++ t).isEmpty then [] else [acc ++ t] := by
  induction t with
  | nil => intro acc; simp [splitAux]
  | cons c t2 ih =>
    intro acc
    have hc : isPyWs c = false := htw c (List.mem_cons_self c t2)
    have ht2 : ∀ x ∈ t2, isPyWs x = false := fun x hx => htw x (List.mem_cons_of_mem c hx)
    rw [splitAux, if_neg (by simp [hc]), ih ht2 (acc ++ [c])]
    simp [List.append_assoc]

theorem pysplit_token {t : List Char} (hne : t ≠ []) (htw : ∀ c ∈ t, isPyWs c = false) :
    pysplit t = [t] := by
  rw [pysplit, splitAux_token_aux htw []]
  simp [hne]

/-- C7: job-identifier extraction from scheduler stdout.  For every prefix
and every nonempty whitespace-free trailing token, extraction on
stdout of the shape prefix-space-token-newline returns exactly the Python
int parse of that token: the parsed integer when the token is a decimal
integer literal, and a propagated parse failure otherwise. -/
theorem C7_job_id_extraction (p t : List Char) (hne : t ≠ [])
    (htw : ∀ c ∈ t, isPyWs c = false) :
    extractJobId (String.mk (p ++ ' ' :: (t ++ ['\n']))) = pyParseInt (String.mk t) := by
  have hlast : (pysplit (stripL (p ++ ' ' :: (t ++ ['\n'])))).getLast? = some t := by
    rw [pysplit_stripL, show (p ++ ' ' :: (t ++ ['\n'])) = (p ++ ' ' :: (t ++ ['\n'])) from rfl]
    rw [show pysplit (p ++ ' ' :: (t ++ ['\n'])) = splitAux (p ++ ' ' :: (t ++ ['\n'])) [] from rfl]
    rw [splitAux_append_space (t ++ ['\n']) p []]
    rw [splitAux_append_trailingWs (by intro c hc; simp at hc; rw [hc]; rfl) t []]
    rw [show splitAux t [] = pysplit t from rfl, pysplit_token hne htw]
    exact List.getLast?_concat ..
  show (match (pysplit (stripL (p ++ ' ' :: (t ++ ['\n'])))).getLast? with
        | none => none
        | some tok => pyParseInt (String.mk tok)) = pyParseInt (String.mk t)
  rw [hlast]

/-- Witness for C7: the example stdout from the spec yields 481920, and a
stdout whose trailing token is not an integer yields a parse failure. -/
theorem C7_job_id_extraction_witness :
    extractJobId (String.mk ("Submitted batch job".data ++ ' ' :: ("481920".data ++ ['\n'])))
      = some 481920
    ∧ extractJobId (String.mk ("Submitted batch job".data ++ ' ' :: ("oops".data ++ ['\n'])))
      = none := by
  constructor
  · rw [C7_job_id_extraction _ _ (by decide) (by decide)]
    decide
  · rw [C7_job_id_extraction _ _ (by decide) (by decide)]
    decide

/-! ### Workspace creation -/

/-- C8: workspace creation fails when the resolved target directory already
exists; the pre-existing directory is never merged with or overwritten. -/
theorem C8_workspace_collision (dirs : List String) (wd : Option String) (timeStr : String)
    (h : resolveWorkingDir wd timeStr ∈ dirs) :
    expInit dirs wd timeStr = none := by
  simp [expInit, pymakedirs, h]

/-- Witness for C8: a second run handed the path of an existing workspace
directory fails. -/
theorem C8_workspace_collision_witness :
    resolveWorkingDir none "2019_01_01-00:00:00" ∈ ["experiments/2019_01_01-00:00:00"]
    ∧ expInit ["experiments/2019_01_01-00:00:00"] none "2019_01_01-00:00:00" = none :=
  ⟨by decide, C8_workspace_collision _ _ _ (by decide)⟩

/-! ### Characterisation of prepare -/

set_option maxRecDepth 8192 in
theorem prepStage1_eq (wd : String) :
    ∀ (l : List String) (acc : List (String × String) × List (String × String)),
      prepStage1 wd l acc = some (l.foldl (fun a mf =>
        (dictInsert a.1 (modelName mf) (reduceCmdStr wd mf),
         dictInsert a.2 (modelName mf) (reducedDataFolder wd (modelName mf)))) acc) := by
  intro l
  induction l with
  | nil => intro acc; rfl
  | cons mf rest ih =>
    intro acc
    have hstep : prepStage1 wd (mf :: rest) acc = prepStage1 wd rest
        (dictInsert acc.1 (modelName mf) (reduceCmdStr wd mf),
         dictInsert acc.2 (modelName mf) (reducedDataFolder wd (modelName mf))) := by
      conv_lhs => rw [prepStage1.eq_def]
      dsimp only []
      conv_lhs => rw [reduce_render]
      dsimp only []
      rfl
    rw [hstep, ih, List.foldl_cons]

theorem prepStage2_eq (rdir : String) :
    ∀ (l : List (String × String)) (acc : List (String × String) × List (String × String)),
      prepStage2 rdir l acc = some (l.foldl (fun a p =>
        (dictInsert a.1 p.1 (retrievalCmdStr rdir p.1 p.2),
         dictInsert a.2 p.1 (pjoin rdir p.1))) acc) := by
  intro l
  induction l with
  | nil => intro acc; rfl
  | cons q rest ih =>
    intro acc
    obtain ⟨name, tdf⟩ := q
    have hstep : prepStage2 rdir ((name, tdf) :: rest) acc = prepStage2 rdir rest
        (dictInsert acc.1 name (retrievalCmdStr rdir name tdf),
         dictInsert acc.2 name (pjoin rdir name)) := by
      conv_lhs => rw [prepStage2.eq_def]
      dsimp only []
      conv_lhs => rw [retrieval_render]
      dsimp only []
      rfl
    rw [hstep, ih, List.foldl_cons]

theorem prepare_eq_of (wd : String) (lines : List String)
    {tc tdf rc rrf : List (String × String)}
    (h1 : prepStage1 wd (lines.map pystrip) ([], []) = some (tc, tdf))
    (h2 : prepStage2 (pjoin wd "retrieval_results") tdf ([], []) = some (rc, rrf)) :
    prepare wd lines = some
      { transform_commands := tc
        transform_data_folders := tdf
        retrieval_dir := pjoin wd "retrieval_results"
        retrieval_commands := rc
        retrieval_result_folders := rrf
        transform_list_path := "transform_commands.list"
        transform_list_lines := tc.map (fun p => p.2)
        retrieval_list_path := "retrieval_commands.list"
        retrieval_list_lines := rc.map (fun p => p.2) } := by
  unfold prepare
  dsimp only []
  rw [h1]
  dsimp only []
  rw [h2]

theorem prepare_components (wd : String) (lines : List String) :
    prepare wd lines = some
      { transform_commands := tcFold wd (lines.map pystrip)
        transform_data_folders := tdfFold wd (lines.map pystrip)
        retrieval_dir := pjoin wd "retrieval_results"
        retrieval_commands :=
          rcFold (pjoin wd "retrieval_results") (tdfFold wd (lines.map pystrip))
        retrieval_result_folders :=
          rrfFold (pjoin wd "retrieval_results") (tdfFold wd (lines.map pystrip))
        transform_list_path := "transform_commands.list"
        transform_list_lines := (tcFold wd (lines.map pystrip)).map (fun p => p.2)
        retrieval_list_path := "retrieval_commands.list"
        retrieval_list_lines := (rcFold (pjoin wd "retrieval_results")
          (tdfFold wd (lines.map pystrip))).map (fun p => p.2) } := by
  apply prepare_eq_of
  · rw [prepStage1_eq,
      foldl_pair (fun d mf => dictInsert d (modelName mf) (reduceCmdStr wd mf))
        (fun d mf => dictInsert d (modelName mf) (reducedDataFolder wd (modelName mf)))]
    rfl
  · rw [prepStage2_eq,
      foldl_pair
        (fun d (p : String × String) =>
          dictInsert d p.1 (retrievalCmdStr (pjoin wd "retrieval_results") p.1 p.2))
        (fun d (p : String × String) => dictInsert d p.1 (pjoin (pjoin wd "retrieval_results") p.1))]
    rfl

/-- C2: corrected claim about artifact locations.  For every run, `prepare`
writes the stage-1 and stage-2 flat command lists at the fixed relative
paths `transform_commands.list` and `retrieval_commands.list` (resolved
against the process current directory, independent of the workspace), while
the retrieval results directory it creates is rooted at the workspace. -/
theorem C2_command_lists_fixed_paths (wd : String) (lines : List String) (st : PrepState)
    (h : prepare wd lines = some st) :
    st.transform_list_path = "transform_commands.list" ∧
    st.retrieval_list_path = "retrieval_commands.list" ∧
    st.retrieval_dir = pjoin wd "retrieval_results" := by
  rw [prepare_components wd lines] at h
  have he := Option.some.inj h
  subst he
  exact ⟨rfl, rfl, rfl⟩

/-- Witness for C2 as amended at a concrete run. -/
theorem C2_command_lists_fixed_paths_witness :
    ∃ st, prepare "wsA" ["m1"] = some st ∧
      st.transform_list_path = "transform_commands.list" ∧
      st.retrieval_list_path = "retrieval_commands.list" ∧
      st.retrieval_dir = pjoin "wsA" "retrieval_results" :=
  ⟨_, prepare_components "wsA" ["m1"],
    C2_command_lists_fixed_paths "wsA" ["m1"] _ (prepare_components "wsA" ["m1"])⟩

/-- C2 counterexample: the command-list artifacts of a concrete run are
written at `transform_commands.list` and `retrieval_commands.list`, neither
of which lies at or under the run workspace directory. -/
theorem C2_command_lists_cx :
    (prepare "experiments/2019_01_01-00:00:00" ["model_a"]).map
        (fun st => (st.transform_list_path, st.retrieval_list_path)) =
      some ("transform_commands.list", "retrieval_commands.list")
    ∧ rootedAt "experiments/2019_01_01-00:00:00" "transform_commands.list" = false
    ∧ rootedAt "experiments/2019_01_01-00:00:00" "retrieval_commands.list" = false := by
  refine ⟨?_, by decide, by decide⟩
  rw [prepare_components]
  rfl

/-- C4: with pairwise-distinct model names, `prepare` produces exactly one
stage-1 command and one stage-2 command per model (also one written line
per model in each command-list artifact), and the data folder bound into
the stage-2 command of each model is exactly the stage-1 output folder
recorded for that model: the stage-2 command text is the retrieval template
rendered around precisely that folder. -/
theorem C4_command_counts_and_chaining (wd : String) (lines : List String)
    (hnd : ((lines.map pystrip).map modelName).Nodup) :
    ∃ st, prepare wd lines = some st ∧
      st.transform_commands.length = lines.length ∧
      st.retrieval_commands.length = lines.length ∧
      st.transform_list_lines.length = lines.length ∧
      st.retrieval_list_lines.length = lines.length ∧
      ∀ name, lookupA name st.retrieval_commands =
        (lookupA name st.transform_data_folders).map
          (fun tdf => "python scrna.py retrieval " ++ tdf ++ " --out_folder=" ++
            pjoin st.retrieval_dir name) := by
  have htc : tcFold wd (lines.map pystrip) =
      (lines.map pystrip).map (fun mf => (modelName mf, reduceCmdStr wd mf)) := by
    rw [show tcFold wd (lines.map pystrip) = (lines.map pystrip).foldl
        (fun d mf => dictInsert d (modelName mf) (reduceCmdStr wd mf)) [] from rfl,
      foldl_dictInsert_fresh modelName (fun mf => reduceCmdStr wd mf) (lines.map pystrip) []
        (fun a _ => rfl) hnd, List.nil_append]
  have htdf : tdfFold wd (lines.map pystrip) =
      (lines.map pystrip).map (fun mf => (modelName mf, reducedDataFolder wd (modelName mf))) := by
    rw [show tdfFold wd (lines.map pystrip) = (lines.map pystrip).foldl
        (fun d mf => dictInsert d (modelName mf) (reducedDataFolder wd (modelName mf))) [] from rfl,
      foldl_dictInsert_fresh modelName (fun mf => reducedDataFolder wd (modelName mf))
        (lines.map pystrip) [] (fun a _ => rfl) hnd, List.nil_append]
  have hkeys : ((tdfFold wd (lines.map pystrip)).map Prod.fst).Nodup := by
    rw [htdf, List.map_map]
    exact hnd
  have hrc : rcFold (pjoin wd "retrieval_results") (tdfFold wd (lines.map pystrip)) =
      (tdfFold wd (lines.map pystrip)).map
        (fun p => (p.1, retrievalCmdStr (pjoin wd "retrieval_results") p.1 p.2)) := by
    rw [show rcFold (pjoin wd "retrieval_results") (tdfFold wd (lines.map pystrip)) =
        (tdfFold wd (lines.map pystrip)).foldl (fun d p => dictInsert d p.1
          (retrievalCmdStr (pjoin wd "retrieval_results") p.1 p.2)) [] from rfl,
      foldl_dictInsert_fresh Prod.fst
        (fun p => retrievalCmdStr (pjoin wd "retrieval_results") p.1 p.2)
        (tdfFold wd (lines.map pystrip)) [] (fun a _ => rfl) hkeys, List.nil_append]
  refine ⟨_, prepare_components wd lines, ?_, ?_, ?_, ?_, ?_⟩
  · dsimp only []
    rw [htc, List.length_map, List.length_map]
  · dsimp only []
    rw [hrc, List.length_map, htdf, List.length_map, List.length_map]
  · dsimp only []
    rw [List.length_map, htc, List.length_map, List.length_map]
  · dsimp only []
    rw [List.length_map, hrc, List.length_map, htdf, List.length_map, List.length_map]
  · intro name
    dsimp only []
    rw [hrc, lookupA_map_keyval
      (fun k v => retrievalCmdStr (pjoin wd "retrieval_results") k v) name]
    rfl

/-- Witness for C4 at two distinctly named models. -/
theorem C4_command_counts_and_chaining_witness :
    ∃ st, prepare "ws" ["models/a", "models/b"] = some st ∧
      st.transform_commands.length = (["models/a", "models/b"] : List String).length ∧
      st.retrieval_commands.length = (["models/a", "models/b"] : List String).length ∧
      st.transform_list_lines.length = (["models/a", "models/b"] : List String).length ∧
      st.retrieval_list_lines.length = (["models/a", "models/b"] : List String).length ∧
      ∀ name, lookupA name st.retrieval_commands =
        (lookupA name st.transform_data_folders).map
          (fun tdf => "python scrna.py retrieval " ++ tdf ++ " --out_folder=" ++
            pjoin st.retrieval_dir name) :=
  C4_command_counts_and_chaining "ws" ["models/a", "models/b"] (by decide)

/-- C9: when a later model path has the same normalized model name as an
earlier, different path, `prepare` keeps a single entry for that name in
`transform_commands`, and its value is the command built from the later
path; no error is raised. -/
theorem C9_duplicate_model_overwrite (wd : String) (xs : List String) (q : String)
    (hdup : ∃ p ∈ xs, modelName (pystrip p) = modelName (pystrip q) ∧
      pystrip p ≠ pystrip q) :
    ∃ st, prepare wd (xs ++ [q]) = some st ∧
      lookupA (modelName (pystrip q)) st.transform_commands =
        some (reduceCmdStr wd (pystrip q)) ∧
      (st.transform_commands.map Prod.fst).Nodup := by
  refine ⟨_, prepare_components wd (xs ++ [q]), ?_, ?_⟩
  · dsimp only []
    have e : tcFold wd ((xs ++ [q]).map pystrip) =
        dictInsert (tcFold wd (xs.map pystrip)) (modelName (pystrip q))
          (reduceCmdStr wd (pystrip q)) := by
      rw [show tcFold wd ((xs ++ [q]).map pystrip) = ((xs ++ [q]).map pystrip).foldl
          (fun d mf => dictInsert d (modelName mf) (reduceCmdStr wd mf)) [] from rfl,
        List.map_append, List.foldl_append]
      rfl
    rw [e, lookupA_dictInsert]
    simp
  · dsimp only []
    exact foldl_dictInsert_keys_nodup modelName (fun mf => reduceCmdStr wd mf)
      ((xs ++ [q]).map pystrip) [] (by simp)

/-- Witness for C9: run1/m and run2/m collide on the name m and the later
path run2/m wins. -/
theorem C9_duplicate_model_overwrite_witness :
    (∃ p ∈ ["run1/m"], modelName (pystrip p) = modelName (pystrip "run2/m") ∧
        pystrip p ≠ pystrip "run2/m")
    ∧ ∃ st, prepare "ws" (["run1/m"] ++ ["run2/m"]) = some st ∧
        lookupA (modelName (pystrip "run2/m")) st.transform_commands =
          some (reduceCmdStr "ws" (pystrip "run2/m")) ∧
        (st.transform_commands.map Prod.fst).Nodup :=
  ⟨by decide, C9_duplicate_model_overwrite "ws" ["run1/m"] "run2/m" (by decide)⟩

/-- C10: a blank or whitespace-only line of the models file is not skipped:
it strips to the empty path, whose normalized basename is the model name
dot, and `prepare` emits a command entry keyed by dot (a single such entry,
since dict keys stay unique). -/
theorem C10_blank_line_dot (wd : String) (lines : List String) (w : String)
    (hw : w ∈ lines) (hws : ∀ c ∈ w.data, isPyWs c = true) :
    modelName (pystrip w) = "." ∧
    ∃ st, prepare wd lines = some st ∧
      (∃ cmd, lookupA "." st.transform_commands = some cmd) ∧
      (st.transform_commands.map Prod.fst).Nodup := by
  have hstrip : pystrip w = "" := by
    rw [pystrip, stripL, List.dropWhile_eq_nil_iff.mpr hws]
    rfl
  have hdot : modelName (pystrip w) = "." := by rw [hstrip]; rfl
  refine ⟨hdot, _, prepare_components wd lines, ?_, ?_⟩
  · dsimp only []
    have hmem : pystrip w ∈ lines.map pystrip := List.mem_map_of_mem pystrip hw
    obtain ⟨cmd, hcmd⟩ := foldl_dictInsert_mem modelName (fun mf => reduceCmdStr wd mf)
      (lines.map pystrip) [] (pystrip w) hmem
    refine ⟨cmd, ?_⟩
    rw [← hdot]
    exact hcmd
  · dsimp only []
    exact foldl_dictInsert_keys_nodup modelName (fun mf => reduceCmdStr wd mf)
      (lines.map pystrip) [] (by simp)

/-- Witness for C10 at a models file with one real model and one blank
line. -/
theorem C10_blank_line_dot_witness :
    ("  " ∈ ["models/a", "  "] ∧ ∀ c ∈ ("  " : String).data, isPyWs c = true) ∧
    (modelName (pystrip "  ") = "." ∧
      ∃ st, prepare "ws" ["models/a", "  "] = some st ∧
        (∃ cmd, lookupA "." st.transform_commands = some cmd) ∧
        (st.transform_commands.map Prod.fst).Nodup) :=
  ⟨⟨by decide, by decide⟩,
    C10_blank_line_dot "ws" ["models/a", "  "] "  " (by decide) (by decide)⟩
